import Mathlib

/-!
Shallow embedding of the data-labeling tool (src/tool.py): the assignment
partitioner, the label ledger and its mutation action, the progress tracker,
the export formatter, the upload path and the reset operation, together with
theorems checking the specification's claims about them.
-/

namespace DataLabeler

/-- One labeling item: an instruction/output text pair (the elements of
`st.session_state.all_data` in src/tool.py). -/
structure Sample where
  instruction : String
  output : String
  deriving DecidableEq

/-- One Label Ledger entry as stored in `st.session_state.labels`
(src/tool.py lines 319-323): `{label, user, timestamp}`. -/
structure LabelEntry where
  label : String
  user : String
  timestamp : String
  deriving DecidableEq

/-- The Label Ledger: a Python dict from sample index to entry.  The Python
code keys the dict by `str(idx)`; since `str` is injective on the natural
numbers we key by the index itself.  Modelled as an association list without
duplicate keys, in insertion order, like a Python dict. -/
abbrev Ledger := List (Nat × LabelEntry)

/-- Python `d.get(k)` on the ledger dict. -/
def dictGet (d : Ledger) (k : Nat) : Option LabelEntry :=
  (d.find? (fun p => p.1 == k)).map (fun p => p.2)

/-- Python `d[k] = v` on a dict: overwrite in place if the key is present,
append otherwise. -/
def dictSet (d : Ledger) (k : Nat) (v : LabelEntry) : Ledger :=
  if d.any (fun p => p.1 == k) then d.map (fun p => if p.1 == k then (k, v) else p)
  else d ++ [(k, v)]

/-- Python `del d[k]` (guarded by a membership test in the source). -/
def dictDel (d : Ledger) (k : Nat) : Ledger :=
  d.filter (fun p => !(p.1 == k))

/-- Python `list(range(a, b))`. -/
def pyRange (a b : Nat) : List Nat := List.range' a (b - a)

/-- src/tool.py `assign_data` (lines 86-96): split indices `0..total_samples-1`
into contiguous blocks of `total_samples // num_users`, the last user taking
everything that remains. -/
def assign_data (total_samples num_users : Nat) : List (String × List Nat) :=
  (List.range num_users).map (fun i =>
    let samples_per_user := total_samples / num_users
    let start_idx := i * samples_per_user
    let end_idx := if i < num_users - 1 then start_idx + samples_per_user else total_samples
    ("user_" ++ toString (i + 1), pyRange start_idx end_idx))

example : assign_data 10 3 =
    [("user_1", [0, 1, 2]), ("user_2", [3, 4, 5]), ("user_3", [6, 7, 8, 9])] := by decide

example : assign_data 0 1 = [("user_1", [])] := by decide

example : assign_data 5 10 = [("user_1", []), ("user_2", []), ("user_3", []),
    ("user_4", []), ("user_5", []), ("user_6", []), ("user_7", []), ("user_8", []),
    ("user_9", []), ("user_10", [0, 1, 2, 3, 4])] := by decide

/-- The sentinel "unset" label of the selectbox (src/tool.py line 302,
`'선택되지 않음'`). -/
def notSelected : String := "선택되지 않음"

/-- The label currently stored for `idx`, defaulting to the sentinel when no
entry exists (src/tool.py line 299). -/
def existing_label (labels : Ledger) (idx : Nat) : String :=
  ((dictGet labels idx).map (fun e => e.label)).getD notSelected

/-- One labeling action at index `idx` with selected label `label`
(src/tool.py lines 312-324): when the selection differs from the stored label,
either delete the entry (sentinel selected) or insert/overwrite it with
`{label, user, timestamp}`; otherwise nothing happens. -/
def setLabel (labels : Ledger) (idx : Nat) (label user timestamp : String) : Ledger :=
  if label ≠ existing_label labels idx then
    if label = notSelected then
      if (dictGet labels idx).isSome then dictDel labels idx else labels
    else dictSet labels idx ⟨label, user, timestamp⟩
  else labels

/-- src/tool.py `calculate_progress` (lines 98-106): count the assigned
indices whose stored label is neither missing (`None`) nor the sentinel.  The
source's first parameter `user` is unused by the computation. -/
def calculate_progress (labels : Ledger) (_user : String) (assigned_indices : List Nat) : Nat :=
  assigned_indices.foldl (fun completed idx =>
    match (dictGet labels idx).map (fun e => e.label) with
    | none => completed
    | some l => if l = notSelected then completed else completed + 1) 0

/-- Python true division as used at src/tool.py line 193: `a / b` raises
`ZeroDivisionError` when `b = 0`, modelled by `none`. -/
def pyDiv (a b : Nat) : Option ℚ := if b = 0 then none else some ((a : ℚ) / (b : ℚ))

/-- The host progress line (src/tool.py lines 192-194): the completed count,
the total `len(assigned_indices)`, and the UNGUARDED ratio
`completed / len(assigned_indices)`. -/
def host_progress (labels : Ledger) (user : String) (assigned_indices : List Nat) :
    Nat × Nat × Option ℚ :=
  let completed := calculate_progress labels user assigned_indices
  (completed, assigned_indices.length, pyDiv completed assigned_indices.length)

/-- The sidebar progress (src/tool.py lines 211-212): the same count and
total, but the ratio is guarded and defaults to `0` on an empty assignment. -/
def popup_progress (labels : Ledger) (user : String) (assigned_indices : List Nat) :
    Nat × Nat × ℚ :=
  let completed := calculate_progress labels user assigned_indices
  (completed, assigned_indices.length,
    if assigned_indices.length > 0 then (completed : ℚ) / (assigned_indices.length : ℚ) else 0)

/-- One row of the exported table (src/tool.py lines 113-119). -/
structure Row where
  instruction : String
  output : String
  label : String
  labeled_by : String
  timestamp : String
  deriving DecidableEq

/-- src/tool.py `save_labels_to_excel` (lines 108-121): one row per sample in
Sample Store order, the three label fields defaulting to the empty string when
no ledger entry exists for the row's index. -/
def save_labels_to_excel (all_data : List Sample) (labels : Ledger) : List Row :=
  (all_data.enum).map (fun p =>
    let label_data := dictGet labels p.1
    { instruction := p.2.instruction
      output := p.2.output
      label := (label_data.map (fun e => e.label)).getD ""
      labeled_by := (label_data.map (fun e => e.user)).getD ""
      timestamp := (label_data.map (fun e => e.timestamp)).getD "" })

/-- The parse loop of the upload handler (src/tool.py lines 162-165):
`json.loads` each uploaded file in order, extending an accumulator; a parse
failure raises and propagates, aborting the whole loop.  An upload is given by
its parse outcome: `Except.ok` a batch of samples, `Except.error` a parse
failure. -/
def parse_uploads : List (Except Unit (List Sample)) → Except Unit (List Sample)
  | [] => Except.ok []
  | f :: fs =>
    match f with
    | Except.error e => Except.error e
    | Except.ok content =>
      match parse_uploads fs with
      | Except.error e => Except.error e
      | Except.ok rest => Except.ok (content ++ rest)

/-- src/tool.py upload handler (lines 160-171) acting on the Sample Store and
the persisted `data_*.json` batch files: the whole batch is parsed first; only
then is the new data persisted as one batch file and appended to the store.
A parse failure yields `Except.error` and no new state. -/
def upload_action (all_data : List Sample) (data_files : List (List Sample))
    (uploads : List (Except Unit (List Sample))) :
    Except Unit (List Sample × List (List Sample)) :=
  match parse_uploads uploads with
  | Except.error e => Except.error e
  | Except.ok new_data => Except.ok (all_data ++ new_data, data_files ++ [new_data])

/-- The in-memory session state cleared by the reset operation
(src/tool.py lines 80-82). -/
structure Session where
  all_data : List Sample
  user_assignments : List (String × List Nat)
  labels : Ledger
  deriving DecidableEq

/-- The data directory as a mapping from file name to serialized content. -/
abbrev DataDir := List (String × String)

/-- src/tool.py line 16: the policy image file name. -/
def POLICY_IMAGE : String := "policy_image.png"

/-- Writing a file: overwrite in place when present, create otherwise. -/
def writeFile (fs : DataDir) (name content : String) : DataDir :=
  if fs.any (fun p => p.1 == name) then
    fs.map (fun p => if p.1 == name then (name, content) else p)
  else fs ++ [(name, content)]

/-- Reading a file, `none` when absent. -/
def readFile (fs : DataDir) (name : String) : Option String :=
  (fs.find? (fun p => p.1 == name)).map (fun p => p.2)

/-- src/tool.py `clear_all_data` (lines 60-84): load the policy image if
present, delete every file in the data directory except the policy image,
re-save the policy image, clear the session state, and return `True`. -/
def clear_all_data (fs : DataDir) (_st : Session) : DataDir × Session × Bool :=
  let has_policy := fs.any (fun p => p.1 == POLICY_IMAGE)
  let policy_image := readFile fs POLICY_IMAGE
  let fs1 := fs.filter (fun p => has_policy && p.1 == POLICY_IMAGE)
  let fs2 :=
    match policy_image with
    | some img => writeFile fs1 POLICY_IMAGE img
    | none => fs1
  (fs2, { all_data := [], user_assignments := [], labels := [] }, true)

/-- The assigned indices actually surfaced to a labeler
(src/tool.py lines 291-292): only those below the Sample Store size. -/
def surfaced_indices (all_data : List Sample) (assigned_indices : List Nat) : List Nat :=
  assigned_indices.filter (fun idx => decide (idx < all_data.length))

/-- One render of the labeling loop (src/tool.py lines 291-325):
walk the assigned indices; an index at or past the store size is skipped
entirely; otherwise the selectbox value `selections idx` for that sample is
applied as a labeling action. -/
def labeler_step (all_data : List Sample) (assigned_indices : List Nat)
    (selections : Nat → String) (user timestamp : String) (labels : Ledger) : Ledger :=
  assigned_indices.foldl (fun L idx =>
    if idx < all_data.length then setLabel L idx (selections idx) user timestamp else L)
    labels

/-- A labeling action as recorded by a trace: the index, the selected label,
the acting labeler and the timestamp. -/
structure LabelAction where
  idx : Nat
  label : String
  user : String
  timestamp : String

/-- Replay a trace of labeling actions from the empty ledger. -/
def applyActions (acts : List LabelAction) : Ledger :=
  acts.foldl (fun L a => setLabel L a.idx a.label a.user a.timestamp) []

/-- The label selected by the most recent action on `idx`, if any: walking the
trace in order, each action on `idx` overrides the previous one. -/
def lastActionLabel (acts : List LabelAction) (idx : Nat) : Option String :=
  acts.foldl (fun acc a => if a.idx == idx then some a.label else acc) none

/-- Whether the most recent action on `idx` selected a non-sentinel label. -/
def lastSetNonUnset (acts : List LabelAction) (idx : Nat) : Bool :=
  match lastActionLabel acts idx with
  | some l => !(l == notSelected)
  | none => false

/-- No ledger entry stores the sentinel label. -/
def noUnsetEntries (L : Ledger) : Bool :=
  L.all (fun p => !(p.2.label == notSelected))

/-! ### Dictionary lemmas -/

theorem find?_map_set_self {K V : Type} [BEq K] [LawfulBEq K] (d : List (K × V)) (k : K) (v : V)
    (hany : d.any (fun p => p.1 == k) = true) :
    List.find? (fun p => p.1 == k)
      (d.map (fun p => if (p.1 == k) = true then (k, v) else p)) = some (k, v) := by
  induction d with
  | nil => simp at hany
  | cons p rest ih =>
    rw [List.map_cons]
    by_cases hp : (p.1 == k) = true
    · rw [if_pos hp, @List.find?_cons_of_pos _ (fun q => q.1 == k) (k, v) _ (by simp)]
    · rw [if_neg hp, @List.find?_cons_of_neg _ (fun q => q.1 == k) p _ hp]
      exact ih (by simpa [List.any_cons, hp] using hany)

theorem find?_map_set_ne {K V : Type} [BEq K] [LawfulBEq K] (d : List (K × V)) (k k' : K) (v : V) (h : k' ≠ k) :
    List.find? (fun p => p.1 == k')
      (d.map (fun p => if (p.1 == k) = true then (k, v) else p)) =
      List.find? (fun p => p.1 == k') d := by
  induction d with
  | nil => rfl
  | cons p rest ih =>
    rw [List.map_cons]
    by_cases hp : (p.1 == k) = true
    · have hk : p.1 = k := by simpa using hp
      rw [if_pos hp, @List.find?_cons_of_neg _ (fun q => q.1 == k') (k, v) _ (by simp [Ne.symm h]),
        @List.find?_cons_of_neg _ (fun q => q.1 == k') p _ (by simp [hk, Ne.symm h])]
      exact ih
    · rw [if_neg hp]
      by_cases hq : (p.1 == k') = true
      · rw [@List.find?_cons_of_pos _ (fun q => q.1 == k') p _ hq,
          @List.find?_cons_of_pos _ (fun q => q.1 == k') p _ hq]
      · rw [@List.find?_cons_of_neg _ (fun q => q.1 == k') p _ hq,
          @List.find?_cons_of_neg _ (fun q => q.1 == k') p _ hq]
        exact ih

theorem find?_append_single_self {K V : Type} [BEq K] [LawfulBEq K] (d : List (K × V)) (k : K) (v : V)
    (hnone : d.any (fun p => p.1 == k) = false) :
    List.find? (fun p => p.1 == k) (d ++ [(k, v)]) = some (k, v) := by
  induction d with
  | nil => rw [List.nil_append, @List.find?_cons_of_pos _ (fun q => q.1 == k) (k, v) _ (by simp)]
  | cons p rest ih =>
    have hp : (p.1 == k) = false := by
      cases hcase : (p.1 == k) with
      | false => rfl
      | true => simp [List.any_cons, hcase] at hnone
    rw [List.cons_append, @List.find?_cons_of_neg _ (fun q => q.1 == k) p _ (by simp [hp])]
    exact ih (by simpa [List.any_cons, hp] using hnone)

theorem find?_append_single_ne {K V : Type} [BEq K] [LawfulBEq K] (d : List (K × V)) (k k' : K) (v : V) (h : k' ≠ k) :
    List.find? (fun p => p.1 == k') (d ++ [(k, v)]) =
      List.find? (fun p => p.1 == k') d := by
  induction d with
  | nil =>
    rw [List.nil_append, @List.find?_cons_of_neg _ (fun q => q.1 == k') (k, v) _ (by simp [Ne.symm h])]
  | cons p rest ih =>
    rw [List.cons_append]
    by_cases hq : (p.1 == k') = true
    · rw [@List.find?_cons_of_pos _ (fun q => q.1 == k') p _ hq,
        @List.find?_cons_of_pos _ (fun q => q.1 == k') p _ hq]
    · rw [@List.find?_cons_of_neg _ (fun q => q.1 == k') p _ hq,
        @List.find?_cons_of_neg _ (fun q => q.1 == k') p _ hq]
      exact ih

theorem dictGet_dictSet_self (d : Ledger) (k : Nat) (v : LabelEntry) :
    dictGet (dictSet d k v) k = some v := by
  unfold dictGet dictSet
  by_cases hany : d.any (fun p => p.1 == k) = true
  · rw [if_pos hany, find?_map_set_self d k v hany]
    rfl
  · rw [if_neg hany, find?_append_single_self d k v (Bool.eq_false_iff.mpr hany)]
    rfl

theorem dictGet_dictSet_ne (d : Ledger) (k k' : Nat) (v : LabelEntry) (h : k' ≠ k) :
    dictGet (dictSet d k v) k' = dictGet d k' := by
  unfold dictGet dictSet
  by_cases hany : d.any (fun p => p.1 == k) = true
  · rw [if_pos hany, find?_map_set_ne d k k' v h]
  · rw [if_neg hany, find?_append_single_ne d k k' v h]

theorem dictGet_dictDel_self (d : Ledger) (k : Nat) :
    dictGet (dictDel d k) k = none := by
  unfold dictGet dictDel
  rw [List.find?_eq_none.mpr]
  · rfl
  · intro x hx
    rcases List.mem_filter.mp hx with ⟨_, hkeep⟩
    simp only [Bool.not_eq_true'] at hkeep
    simp [hkeep]

theorem dictGet_dictDel_ne (d : Ledger) (k k' : Nat) (h : k' ≠ k) :
    dictGet (dictDel d k) k' = dictGet d k' := by
  unfold dictGet dictDel
  induction d with
  | nil => rfl
  | cons p rest ih =>
    rw [List.filter_cons]
    by_cases hp : (p.1 == k) = true
    · have hk : p.1 = k := by simpa using hp
      rw [if_neg (by simp [hp]), @List.find?_cons_of_neg _ (fun q => q.1 == k') p _
        (by simp [hk, Ne.symm h])]
      exact ih
    · rw [if_pos (by simp [hp])]
      by_cases hq : (p.1 == k') = true
      · rw [@List.find?_cons_of_pos _ (fun q => q.1 == k') p _ hq,
          @List.find?_cons_of_pos _ (fun q => q.1 == k') p _ hq]
      · rw [@List.find?_cons_of_neg _ (fun q => q.1 == k') p _ hq,
          @List.find?_cons_of_neg _ (fun q => q.1 == k') p _ hq]
        exact ih

/-! ### C1: the assignment partitioner -/

theorem flatten_range_blocks (base m : Nat) :
    (((List.range m).map (fun i => List.range' (i * base) base)).flatten) =
      List.range' 0 (m * base) := by
  induction m with
  | zero => simp
  | succ k ih =>
    rw [List.range_succ, List.map_append, List.flatten_append, ih]
    simp only [List.map_cons, List.map_nil, List.flatten_cons, List.flatten_nil,
      List.append_nil]
    have h := List.range'_append 0 (k * base) base 1
    simp only [Nat.one_mul, Nat.zero_add] at h
    rw [h, show base + k * base = (k + 1) * base from by ring]

/-- C1: for `total ≥ 0` and `n ≥ 1`, `assign_data` gives labelers `1..n-1`
contiguous blocks of exactly `total / n` indices in order starting from 0, the
last labeler all remaining `total / n + total % n` indices, the concatenation
of all blocks is exactly `[0, ..., total-1]` (each index once: no gaps, no
overlaps), and `assign_data 10 3` assigns `user_1 ↦ [0,1,2]`,
`user_2 ↦ [3,4,5]`, `user_3 ↦ [6,7,8,9]`. -/
theorem assign_data_correct (total n : Nat) (hn : 1 ≤ n) :
    (∀ i, i + 1 < n →
      (assign_data total n)[i]? =
        some ("user_" ++ toString (i + 1),
          List.range' (i * (total / n)) (total / n))) ∧
    (assign_data total n)[n - 1]? =
      some ("user_" ++ toString n,
        List.range' ((n - 1) * (total / n)) (total / n + total % n)) ∧
    ((assign_data total n).map Prod.snd).flatten = List.range total ∧
    assign_data 10 3 =
      [("user_1", [0, 1, 2]), ("user_2", [3, 4, 5]), ("user_3", [6, 7, 8, 9])] := by
  refine ⟨?_, ?_, ?_, by decide⟩
  · intro i hi
    have hin : i < n := by omega
    have hi1 : i < n - 1 := by omega
    simp [assign_data, List.getElem?_map, List.getElem?_range hin, pyRange, hi1]
  · have hin : n - 1 < n := by omega
    have hdm : n * (total / n) + total % n = total := Nat.div_add_mod total n
    have hmul : (n - 1) * (total / n) + total / n = n * (total / n) := by
      cases n with
      | zero => omega
      | succ k => simp [Nat.succ_sub_one, Nat.succ_mul]
    have hkey : (n - 1) * (total / n) + (total / n + total % n) = total := by
      rw [← Nat.add_assoc, hmul, hdm]
    have hsub : total - (n - 1) * (total / n) = total / n + total % n :=
      Nat.sub_eq_of_eq_add (by rw [Nat.add_comm] at hkey; exact hkey.symm)
    have hname : n - 1 + 1 = n := by omega
    simp [assign_data, List.getElem?_map, List.getElem?_range hin, pyRange, hsub, hname]
  · obtain ⟨m, rfl⟩ : ∃ m, n = m + 1 := ⟨n - 1, by omega⟩
    have hdm : (m + 1) * (total / (m + 1)) + total % (m + 1) = total :=
      Nat.div_add_mod total (m + 1)
    have hmul : m * (total / (m + 1)) + total / (m + 1) = (m + 1) * (total / (m + 1)) := by
      ring
    have hkey : m * (total / (m + 1)) + (total / (m + 1) + total % (m + 1)) = total := by
      rw [← Nat.add_assoc, hmul, hdm]
    have hmb : m * (total / (m + 1)) ≤ total := Nat.le.intro hkey
    have hsnd : ((assign_data total (m + 1)).map Prod.snd) =
        (List.range (m + 1)).map (fun i =>
          pyRange (i * (total / (m + 1)))
            (if i < m + 1 - 1 then i * (total / (m + 1)) + total / (m + 1) else total)) := by
      unfold assign_data
      rw [List.map_map]
      rfl
    rw [hsnd, List.range_succ, List.map_append, List.flatten_append]
    have hblocks : (List.range m).map (fun i =>
        pyRange (i * (total / (m + 1)))
          (if i < m + 1 - 1 then i * (total / (m + 1)) + total / (m + 1) else total)) =
        (List.range m).map (fun i => List.range' (i * (total / (m + 1))) (total / (m + 1))) := by
      refine List.map_congr_left (fun i hmem => ?_)
      have him : i < m := List.mem_range.mp hmem
      simp [pyRange, him, Nat.add_sub_cancel_left]
    rw [hblocks, flatten_range_blocks]
    simp only [List.map_cons, List.map_nil, List.flatten_cons, List.flatten_nil,
      List.append_nil]
    rw [show (if m < m + 1 - 1 then m * (total / (m + 1)) + total / (m + 1) else total) = total
      from by simp]
    have h := List.range'_append 0 (m * (total / (m + 1))) (total - m * (total / (m + 1))) 1
    simp only [Nat.one_mul, Nat.zero_add] at h
    rw [pyRange, h, Nat.sub_add_cancel hmb, List.range_eq_range']

/-- Witness for `assign_data_correct`: instantiated at `total = 10`, `n = 3`,
first labeler `i = 0`. -/
theorem assign_data_correct_witness :
    (assign_data 10 3)[0]? = some ("user_" ++ toString 1, List.range' (0 * (10 / 3)) (10 / 3)) ∧
    ((assign_data 10 3).map Prod.snd).flatten = List.range 10 :=
  ⟨(assign_data_correct 10 3 (by decide)).1 0 (by decide),
    ((assign_data_correct 10 3 (by decide)).2.2).1⟩

/-! ### Ledger action lemmas -/

theorem existing_label_of_none (L : Ledger) (idx : Nat) (h : dictGet L idx = none) :
    existing_label L idx = notSelected := by
  unfold existing_label
  rw [h]
  rfl

theorem existing_label_of_some (L : Ledger) (idx : Nat) (e : LabelEntry)
    (h : dictGet L idx = some e) : existing_label L idx = e.label := by
  unfold existing_label
  rw [h]
  rfl

theorem dictGet_setLabel_ne (L : Ledger) (idx k : Nat) (l u t : String) (h : k ≠ idx) :
    dictGet (setLabel L idx l u t) k = dictGet L k := by
  unfold setLabel
  by_cases h1 : l ≠ existing_label L idx
  · rw [if_pos h1]
    by_cases h2 : l = notSelected
    · rw [if_pos h2]
      by_cases h3 : (dictGet L idx).isSome = true
      · rw [if_pos h3]
        exact dictGet_dictDel_ne L idx k h
      · rw [if_neg h3]
    · rw [if_neg h2]
      exact dictGet_dictSet_ne L idx k _ h
  · rw [if_neg h1]

theorem dictGet_setLabel_set (L : Ledger) (idx : Nat) (l u t : String)
    (hl : l ≠ notSelected) (hne : l ≠ existing_label L idx) :
    dictGet (setLabel L idx l u t) idx = some ⟨l, u, t⟩ := by
  unfold setLabel
  rw [if_pos hne, if_neg hl]
  exact dictGet_dictSet_self L idx _

theorem dictGet_setLabel_unset (L : Ledger) (idx : Nat) (u t : String)
    (hne : existing_label L idx ≠ notSelected) :
    dictGet (setLabel L idx notSelected u t) idx = none := by
  have hsome : (dictGet L idx).isSome = true := by
    cases h : dictGet L idx with
    | none => exact absurd (existing_label_of_none L idx h) hne
    | some e => rfl
  unfold setLabel
  rw [if_pos (Ne.symm hne), if_pos rfl, if_pos hsome]
  exact dictGet_dictDel_self L idx

/-- C2: starting from a ledger with no entry at `idx`, setting a non-unset
label inserts the entry and then setting the sentinel removes it entirely
(absent, then present, then absent again); setting the sentinel when no entry
exists leaves the ledger unchanged. -/
theorem setLabel_unset_roundtrip (L : Ledger) (idx : Nat) (l u t u2 t2 : String)
    (hl : l ≠ notSelected) (habs : dictGet L idx = none) :
    dictGet (setLabel L idx l u t) idx = some ⟨l, u, t⟩ ∧
    dictGet (setLabel (setLabel L idx l u t) idx notSelected u2 t2) idx = none ∧
    setLabel L idx notSelected u2 t2 = L := by
  have hex : existing_label L idx = notSelected := existing_label_of_none L idx habs
  have h1 : dictGet (setLabel L idx l u t) idx = some ⟨l, u, t⟩ :=
    dictGet_setLabel_set L idx l u t hl (by rw [hex]; exact hl)
  refine ⟨h1, ?_, ?_⟩
  · have hex1 : existing_label (setLabel L idx l u t) idx = l :=
      existing_label_of_some _ idx _ h1
    exact dictGet_setLabel_unset _ idx u2 t2 (by rw [hex1]; exact hl)
  · unfold setLabel
    rw [hex, if_neg (by simp)]

/-- Witness for `setLabel_unset_roundtrip` on the empty ledger at index 0. -/
theorem setLabel_unset_roundtrip_witness :
    dictGet (setLabel [] 0 "정책" "user_1" "t1") 0 = some ⟨"정책", "user_1", "t1"⟩ ∧
    dictGet (setLabel (setLabel [] 0 "정책" "user_1" "t1") 0 notSelected "user_2" "t2") 0 =
      none ∧
    setLabel [] 0 notSelected "user_2" "t2" = [] :=
  setLabel_unset_roundtrip [] 0 "정책" "user_1" "t1" "user_2" "t2" (by decide) rfl

/-- C3 counterexample: the labeling action is NOT an unconditional overwrite.
`user_1` labels index 0 with `정책`; a second action by `user_2` selecting the
same label `정책` is a no-op because of the `label != existing_label` guard
(src/tool.py line 312), so the entry is not overwritten with
`{정책, user_2, t2}` (it still records `user_1`). -/
theorem setLabel_same_label_not_overwritten :
    dictGet (setLabel (setLabel [] 0 "정책" "user_1" "t1") 0 "정책" "user_2" "t2") 0 ≠
      some ⟨"정책", "user_2", "t2"⟩ := by decide

/-- C3 amended: a labeling action with a non-unset label that differs from the
currently stored label (in particular on any index whose entry was written by
any other labeler: nothing checks the labeler) inserts/overwrites the entry
with `{label, labeled_by, timestamp}`; a second action on the same index with
a DIFFERENT non-unset label fully overwrites the first entry, updating label,
labeler and timestamp at once.  Only an action repeating the stored label is a
no-op. -/
theorem setLabel_overwrites (L : Ledger) (idx : Nat) (l u t l2 u2 t2 : String)
    (hl : l ≠ notSelected) (hne : l ≠ existing_label L idx)
    (hl2 : l2 ≠ notSelected) (hne2 : l2 ≠ l) :
    dictGet (setLabel L idx l u t) idx = some ⟨l, u, t⟩ ∧
    dictGet (setLabel (setLabel L idx l u t) idx l2 u2 t2) idx = some ⟨l2, u2, t2⟩ := by
  have h1 : dictGet (setLabel L idx l u t) idx = some ⟨l, u, t⟩ :=
    dictGet_setLabel_set L idx l u t hl hne
  refine ⟨h1, ?_⟩
  have hex1 : existing_label (setLabel L idx l u t) idx = l :=
    existing_label_of_some _ idx _ h1
  exact dictGet_setLabel_set _ idx l2 u2 t2 hl2 (by rw [hex1]; exact hne2)

/-- Witness for `setLabel_overwrites`: `user_1` writes `정책`, then `user_2`
overwrites with `전문용어` on the same index. -/
theorem setLabel_overwrites_witness :
    dictGet (setLabel [] 0 "정책" "user_1" "t1") 0 = some ⟨"정책", "user_1", "t1"⟩ ∧
    dictGet (setLabel (setLabel [] 0 "정책" "user_1" "t1") 0 "전문용어" "user_2" "t2") 0 =
      some ⟨"전문용어", "user_2", "t2"⟩ :=
  setLabel_overwrites [] 0 "정책" "user_1" "t1" "전문용어" "user_2" "t2"
    (by decide) (by decide) (by decide) (by decide)

/-! ### C6: the no-sentinel invariant on reachable ledgers -/

theorem noUnset_dictGet (L : Ledger) (k : Nat) (e : LabelEntry)
    (hInv : noUnsetEntries L = true) (h : dictGet L k = some e) :
    ¬ e.label = notSelected := by
  unfold dictGet at h
  cases hf : L.find? (fun p => p.1 == k) with
  | none => rw [hf] at h; exact absurd h (by simp)
  | some p =>
    rw [hf] at h
    have hpe : p.2 = e := by simpa using h
    have hmem : p ∈ L := List.mem_of_find?_eq_some hf
    have hx := (List.all_eq_true.mp hInv) p hmem
    rw [hpe] at hx
    simpa using hx

theorem noUnset_dictDel (L : Ledger) (k : Nat) (hInv : noUnsetEntries L = true) :
    noUnsetEntries (dictDel L k) = true := by
  unfold noUnsetEntries dictDel
  rw [List.all_eq_true]
  intro x hx
  exact (List.all_eq_true.mp hInv) x (List.mem_filter.mp hx).1

theorem noUnset_dictSet (L : Ledger) (k : Nat) (v : LabelEntry)
    (hInv : noUnsetEntries L = true) (hv : ¬ v.label = notSelected) :
    noUnsetEntries (dictSet L k v) = true := by
  unfold noUnsetEntries dictSet
  by_cases hany : L.any (fun p => p.1 == k) = true
  · rw [if_pos hany, List.all_eq_true]
    intro x hx
    rcases List.mem_map.mp hx with ⟨p, hp, hfx⟩
    by_cases hpk : (p.1 == k) = true
    · rw [if_pos hpk] at hfx
      rw [← hfx]
      simp [hv]
    · rw [if_neg hpk] at hfx
      rw [← hfx]
      exact (List.all_eq_true.mp hInv) p hp
  · rw [if_neg hany, List.all_eq_true]
    intro x hx
    rcases List.mem_append.mp hx with hmem | hmem
    · exact (List.all_eq_true.mp hInv) x hmem
    · rw [List.mem_singleton.mp hmem]
      simp [hv]

theorem noUnset_setLabel (L : Ledger) (idx : Nat) (l u t : String)
    (hInv : noUnsetEntries L = true) :
    noUnsetEntries (setLabel L idx l u t) = true := by
  unfold setLabel
  by_cases h1 : l ≠ existing_label L idx
  · rw [if_pos h1]
    by_cases h2 : l = notSelected
    · rw [if_pos h2]
      by_cases h3 : (dictGet L idx).isSome = true
      · rw [if_pos h3]
        exact noUnset_dictDel L idx hInv
      · rw [if_neg h3]
        exact hInv
    · rw [if_neg h2]
      exact noUnset_dictSet L idx ⟨l, u, t⟩ hInv h2
  · rw [if_neg h1]
    exact hInv

/-- On a ledger satisfying the invariant, a labeling action leaves the label
stored at its own index equal to the selected label (absent for the
sentinel) — whether or not the `label != existing_label` guard fired. -/
theorem label_after_setLabel (L : Ledger) (idx : Nat) (l u t : String)
    (hInv : noUnsetEntries L = true) :
    (dictGet (setLabel L idx l u t) idx).map (fun e => e.label) =
      if l = notSelected then none else some l := by
  by_cases h2 : l = notSelected
  · rw [if_pos h2]
    subst h2
    by_cases hne : existing_label L idx = notSelected
    · have hnoop : setLabel L idx notSelected u t = L := by
        unfold setLabel
        rw [hne, if_neg (by simp)]
      rw [hnoop]
      cases h : dictGet L idx with
      | none => rfl
      | some e =>
        have hl := existing_label_of_some L idx e h
        exact absurd (hl.symm.trans hne) (noUnset_dictGet L idx e hInv h)
    · rw [dictGet_setLabel_unset L idx u t hne]
      rfl
  · rw [if_neg h2]
    by_cases hne : l = existing_label L idx
    · have hnoop : setLabel L idx l u t = L := by
        unfold setLabel
        rw [if_neg (by simp [hne])]
      rw [hnoop]
      cases h : dictGet L idx with
      | none =>
        have habs := existing_label_of_none L idx h
        exact absurd (hne.trans habs) h2
      | some e =>
        have hl := existing_label_of_some L idx e h
        exact congrArg some (hne.trans hl).symm
    · rw [dictGet_setLabel_set L idx l u t h2 hne]
      rfl

theorem lastActionLabel_foldl_acc (idx : Nat) (acts : List LabelAction) :
    ∀ acc : Option String,
      acts.foldl (fun acc a => if a.idx == idx then some a.label else acc) acc =
        match acts.foldl (fun acc a => if a.idx == idx then some a.label else acc) none with
        | some l => some l
        | none => acc := by
  induction acts with
  | nil => intro acc; rfl
  | cons b bs ih =>
    intro acc
    simp only [List.foldl_cons]
    rw [ih (if b.idx == idx then some b.label else acc),
      ih (if b.idx == idx then some b.label else none)]
    cases hF : bs.foldl (fun acc a => if a.idx == idx then some a.label else acc) none with
    | some l => rfl
    | none =>
      by_cases hb : (b.idx == idx) = true
      · rw [if_pos hb, if_pos hb]
      · rw [if_neg hb, if_neg hb]

theorem lastActionLabel_cons (a : LabelAction) (rest : List LabelAction) (idx : Nat) :
    lastActionLabel (a :: rest) idx =
      match lastActionLabel rest idx with
      | some l => some l
      | none => if a.idx == idx then some a.label else none := by
  unfold lastActionLabel
  simp only [List.foldl_cons]
  exact lastActionLabel_foldl_acc idx rest _

theorem setLabel_foldl_inv (acts : List LabelAction) :
    ∀ (L : Ledger), noUnsetEntries L = true → ∀ idx : Nat,
      noUnsetEntries
        (acts.foldl (fun M a => setLabel M a.idx a.label a.user a.timestamp) L) = true ∧
      (dictGet (acts.foldl (fun M a => setLabel M a.idx a.label a.user a.timestamp) L)
          idx).map (fun e => e.label) =
        (match lastActionLabel acts idx with
         | some l => if l = notSelected then none else some l
         | none => (dictGet L idx).map (fun e => e.label)) := by
  induction acts with
  | nil =>
    intro L hInv idx
    exact ⟨hInv, rfl⟩
  | cons a rest ih =>
    intro L hInv idx
    simp only [List.foldl_cons]
    have hInv' := noUnset_setLabel L a.idx a.label a.user a.timestamp hInv
    obtain ⟨hA, hB⟩ := ih (setLabel L a.idx a.label a.user a.timestamp) hInv' idx
    refine ⟨hA, ?_⟩
    rw [hB, lastActionLabel_cons]
    cases hre : lastActionLabel rest idx with
    | some l => rfl
    | none =>
      by_cases hid : (a.idx == idx) = true
      · have heq : a.idx = idx := by simpa using hid
        have hstep := label_after_setLabel L a.idx a.label a.user a.timestamp hInv
        rw [← heq]
        simp [hstep]
      · have hneq : idx ≠ a.idx := fun h => hid (by simp [h])
        rw [dictGet_setLabel_ne L a.idx idx a.label a.user a.timestamp hneq]
        rw [if_neg hid]

/-- C6: in every ledger reachable from the empty ledger by labeling actions,
an index has an entry iff the most recent action on it selected a non-unset
label; the ledger never stores an entry whose label is the unset sentinel
(unset is represented by absence); and every labeling action preserves the
no-sentinel invariant. -/
theorem ledger_reachable_invariant (acts : List LabelAction) (idx : Nat) :
    noUnsetEntries (applyActions acts) = true ∧
    (dictGet (applyActions acts) idx).isSome = lastSetNonUnset acts idx ∧
    (∀ (L : Ledger) (a : LabelAction), noUnsetEntries L = true →
      noUnsetEntries (setLabel L a.idx a.label a.user a.timestamp) = true) := by
  obtain ⟨hA, hB⟩ := setLabel_foldl_inv acts [] rfl idx
  refine ⟨hA, ?_, fun L a h => noUnset_setLabel L a.idx a.label a.user a.timestamp h⟩
  have hmap : (dictGet (applyActions acts) idx).isSome =
      ((dictGet (applyActions acts) idx).map (fun e => e.label)).isSome := by
    cases dictGet (applyActions acts) idx <;> rfl
  rw [hmap]
  unfold applyActions
  rw [hB]
  unfold lastSetNonUnset
  cases hre : lastActionLabel acts idx with
  | none => rfl
  | some l =>
    by_cases hl : l = notSelected
    · simp [hl]
    · simp [hl]

/-- Witness for `ledger_reachable_invariant`: one action labeling index 0 with
`정책` yields a present entry, and the preservation conjunct applied to the
empty ledger. -/
theorem ledger_reachable_invariant_witness :
    (dictGet (applyActions [⟨0, "정책", "user_1", "t1"⟩]) 0).isSome = true ∧
    noUnsetEntries (setLabel [] 0 "정책" "user_1" "t1") = true := by
  have h := ledger_reachable_invariant [⟨0, "정책", "user_1", "t1"⟩] 0
  constructor
  · rw [h.2.1]
    decide
  · exact h.2.2 [] ⟨0, "정책", "user_1", "t1"⟩ (by decide)

/-! ### C5: the progress count, C4: the ratio guard -/

/-- The per-index condition counted by `calculate_progress`: a ledger entry is
present and its label is not the sentinel. -/
def counted (labels : Ledger) (idx : Nat) : Bool :=
  match (dictGet labels idx).map (fun e => e.label) with
  | none => false
  | some l => !(l == notSelected)

theorem calculate_progress_foldl (labels : Ledger) (assigned : List Nat) :
    ∀ n : Nat,
      assigned.foldl (fun completed idx =>
        match (dictGet labels idx).map (fun e => e.label) with
        | none => completed
        | some l => if l = notSelected then completed else completed + 1) n =
      n + (assigned.filter (counted labels)).length := by
  induction assigned with
  | nil => intro n; simp
  | cons i rest ih =>
    intro n
    rw [List.foldl_cons, List.filter_cons]
    cases hd : (dictGet labels i).map (fun e => e.label) with
    | none =>
      have hc : counted labels i = false := by unfold counted; rw [hd]
      rw [hc, if_neg Bool.false_ne_true]
      simp only [hd]
      exact ih n
    | some l =>
      by_cases hl : l = notSelected
      · have hc : counted labels i = false := by
          unfold counted
          rw [hd, hl]
          simp
        rw [hc, if_neg Bool.false_ne_true]
        simp only [hd, if_pos hl]
        exact ih n
      · have hc : counted labels i = true := by
          unfold counted
          rw [hd]
          simp [hl]
        rw [hc, if_pos rfl]
        simp only [hd, if_neg hl]
        rw [ih (n + 1), List.length_cons]
        omega

/-- C5: on ledgers of the spec's data model (entries always carry one of the
category labels, never the unset sentinel), `calculate_progress` returns
exactly the number of assigned indices that have a present entry in the Label
Ledger, and the `total` used by both progress displays is the length of the
labeler's assigned index sequence. -/
theorem calculate_progress_correct (labels : Ledger) (user : String)
    (assigned : List Nat) (hInv : noUnsetEntries labels = true) :
    calculate_progress labels user assigned =
      (assigned.filter (fun idx => (dictGet labels idx).isSome)).length ∧
    (host_progress labels user assigned).2.1 = assigned.length ∧
    (popup_progress labels user assigned).2.1 = assigned.length := by
  refine ⟨?_, rfl, rfl⟩
  unfold calculate_progress
  rw [calculate_progress_foldl labels assigned 0, Nat.zero_add]
  congr 1
  refine List.filter_congr (fun idx _ => ?_)
  show counted labels idx = (dictGet labels idx).isSome
  unfold counted
  cases h : dictGet labels idx with
  | none => rfl
  | some e =>
    have hne := noUnset_dictGet labels idx e hInv h
    simp [hne]

/-- Witness for `calculate_progress_correct`: one labeled index out of two
assigned ones. -/
theorem calculate_progress_correct_witness :
    calculate_progress [(0, ⟨"정책", "user_1", "t1"⟩)] "user_1" [0, 5] =
      ([0, 5].filter
        (fun idx => (dictGet [(0, ⟨"정책", "user_1", "t1"⟩)] idx).isSome)).length :=
  (calculate_progress_correct [(0, ⟨"정책", "user_1", "t1"⟩)] "user_1" [0, 5]
    (by decide)).1

/-- C4 (documenting the code bug): with one sample split across two labelers,
`user_1`'s assignment is empty.  `calculate_progress` itself returns 0 without
fault, and the sidebar popup guards the ratio (displays 0), but the host
progress line (src/tool.py line 193) divides `completed / len(assigned)`
with no guard: on the empty assignment the division raises
(`pyDiv _ 0 = none` models the `ZeroDivisionError`). -/
theorem host_progress_zero_division :
    (assign_data 1 2)[0]? = some ("user_1", []) ∧
    calculate_progress [(0, ⟨"정책", "user_2", "t"⟩)] "user_1" [] = 0 ∧
    (popup_progress [(0, ⟨"정책", "user_2", "t"⟩)] "user_1" []).2.2 = 0 ∧
    (host_progress [(0, ⟨"정책", "user_2", "t"⟩)] "user_1" []).2.2 = none := by
  refine ⟨by decide, rfl, ?_, rfl⟩
  simp [popup_progress]

/-! ### C7: the export formatter -/

/-- C7: the export produces exactly one row per sample index, in Sample Store
order (row count equals store size whatever the ledger holds); a row carries
the sample's instruction/output together with the ledger entry's label,
labeler and timestamp when an entry is present, and empty strings for those
three fields otherwise. -/
theorem save_labels_to_excel_rows (all_data : List Sample) (labels : Ledger) :
    (save_labels_to_excel all_data labels).length = all_data.length ∧
    (∀ idx item, all_data[idx]? = some item → dictGet labels idx = none →
      (save_labels_to_excel all_data labels)[idx]? =
        some ⟨item.instruction, item.output, "", "", ""⟩) ∧
    (∀ idx item e, all_data[idx]? = some item → dictGet labels idx = some e →
      (save_labels_to_excel all_data labels)[idx]? =
        some ⟨item.instruction, item.output, e.label, e.user, e.timestamp⟩) := by
  refine ⟨?_, ?_, ?_⟩
  · unfold save_labels_to_excel
    rw [List.length_map, List.enum_length]
  · intro idx item hit habs
    unfold save_labels_to_excel
    rw [List.getElem?_map, List.getElem?_enum, hit]
    simp [habs]
  · intro idx item e hit hsome
    unfold save_labels_to_excel
    rw [List.getElem?_map, List.getElem?_enum, hit]
    simp [hsome]

/-- Witness for `save_labels_to_excel_rows`: a one-sample store, once with an
empty ledger (blank fields) and once with a ledger entry. -/
theorem save_labels_to_excel_rows_witness :
    (save_labels_to_excel [⟨"q", "a"⟩] [])[0]? = some ⟨"q", "a", "", "", ""⟩ ∧
    (save_labels_to_excel [⟨"q", "a"⟩] [(0, ⟨"정책", "user_1", "t1"⟩)])[0]? =
      some ⟨"q", "a", "정책", "user_1", "t1"⟩ :=
  ⟨(save_labels_to_excel_rows [⟨"q", "a"⟩] []).2.1 0 ⟨"q", "a"⟩ rfl rfl,
    (save_labels_to_excel_rows [⟨"q", "a"⟩] [(0, ⟨"정책", "user_1", "t1"⟩)]).2.2 0
      ⟨"q", "a"⟩ ⟨"정책", "user_1", "t1"⟩ rfl rfl⟩

/-! ### C8: atomicity of the upload -/

/-- Whether an uploaded file failed to parse. -/
def isParseError (u : Except Unit (List Sample)) : Bool :=
  match u with
  | Except.error _ => true
  | Except.ok _ => false

/-- The parsed content of an upload, empty on a parse failure. -/
def okContent (u : Except Unit (List Sample)) : List Sample :=
  match u with
  | Except.error _ => []
  | Except.ok c => c

theorem parse_uploads_error (uploads : List (Except Unit (List Sample)))
    (h : uploads.any isParseError = true) :
    parse_uploads uploads = Except.error () := by
  induction uploads with
  | nil => simp at h
  | cons f fs ih =>
    cases f with
    | error e => cases e; rfl
    | ok c =>
      have hfs : fs.any isParseError = true := by
        simpa [List.any_cons, isParseError] using h
      unfold parse_uploads
      rw [ih hfs]

theorem parse_uploads_ok (uploads : List (Except Unit (List Sample)))
    (h : uploads.any isParseError = false) :
    parse_uploads uploads = Except.ok ((uploads.map okContent).flatten) := by
  induction uploads with
  | nil => rfl
  | cons f fs ih =>
    cases f with
    | error e => simp [List.any_cons, isParseError] at h
    | ok c =>
      have hfs : fs.any isParseError = false := by
        simpa [List.any_cons, isParseError] using h
      unfold parse_uploads
      rw [ih hfs]
      simp [okContent]

/-- C8: the upload is all-or-nothing.  If any file of the batch fails to
parse, the whole upload fails (`Except.error` propagates) and neither the
Sample Store nor the persisted batch files acquire a new state; if every file
parses, the store and the batch files are extended with the concatenated
batch. -/
theorem upload_all_or_nothing (all_data : List Sample)
    (data_files : List (List Sample)) (uploads : List (Except Unit (List Sample))) :
    (uploads.any isParseError = true →
      upload_action all_data data_files uploads = Except.error ()) ∧
    (uploads.any isParseError = false →
      upload_action all_data data_files uploads =
        Except.ok (all_data ++ (uploads.map okContent).flatten,
          data_files ++ [(uploads.map okContent).flatten])) := by
  constructor
  · intro h
    unfold upload_action
    rw [parse_uploads_error uploads h]
  · intro h
    unfold upload_action
    rw [parse_uploads_ok uploads h]

/-- Witness for `upload_all_or_nothing`: a batch with a malformed second file
fails whole; the same well-formed file alone is ingested. -/
theorem upload_all_or_nothing_witness :
    upload_action [] [] [Except.ok [⟨"q", "a"⟩], Except.error ()] = Except.error () ∧
    upload_action [] [] [Except.ok [⟨"q", "a"⟩]] =
      Except.ok ([⟨"q", "a"⟩], [[⟨"q", "a"⟩]]) := by
  constructor
  · exact (upload_all_or_nothing [] [] [Except.ok [⟨"q", "a"⟩], Except.error ()]).1
      (by decide)
  · have h := (upload_all_or_nothing [] [] [Except.ok [⟨"q", "a"⟩]]).2 (by decide)
    simpa using h

/-! ### C9: the reset operation -/

theorem readFile_writeFile_self (fs : DataDir) (name content : String) :
    readFile (writeFile fs name content) name = some content := by
  unfold readFile writeFile
  by_cases hany : fs.any (fun p => p.1 == name) = true
  · rw [if_pos hany, find?_map_set_self fs name content hany]
    rfl
  · rw [if_neg hany,
      find?_append_single_self fs name content (Bool.eq_false_iff.mpr hany)]
    rfl

theorem writeFile_all_key (fs : DataDir) (name content : String)
    (h : fs.all (fun p => p.1 == name) = true) :
    (writeFile fs name content).all (fun p => p.1 == name) = true := by
  unfold writeFile
  by_cases hany : fs.any (fun p => p.1 == name) = true
  · rw [if_pos hany, List.all_eq_true]
    intro x hx
    rcases List.mem_map.mp hx with ⟨p, hp, hfx⟩
    by_cases hpk : (p.1 == name) = true
    · rw [if_pos hpk] at hfx
      rw [← hfx]
      simp
    · rw [if_neg hpk] at hfx
      rw [← hfx]
      exact (List.all_eq_true.mp h) p hp
  · rw [if_neg hany, List.all_append, h]
    simp

/-- C9: the reset clears the in-memory Sample Store, Assignment Map and Label
Ledger to empty and returns `True`; every file surviving in the data directory
is the policy image; and the policy image file is exactly as it was before the
reset — present with unchanged content if it existed, absent otherwise — so it
remains loadable afterwards. -/
theorem clear_all_data_correct (fs : DataDir) (st : Session) :
    (clear_all_data fs st).2.1 = ⟨[], [], []⟩ ∧
    (clear_all_data fs st).2.2 = true ∧
    ((clear_all_data fs st).1.all (fun p => p.1 == POLICY_IMAGE)) = true ∧
    readFile (clear_all_data fs st).1 POLICY_IMAGE = readFile fs POLICY_IMAGE := by
  refine ⟨rfl, rfl, ?_, ?_⟩
  · simp only [clear_all_data]
    have hfilter : ((fs.filter (fun p =>
        (fs.any (fun q => q.1 == POLICY_IMAGE)) && p.1 == POLICY_IMAGE)).all
          (fun p => p.1 == POLICY_IMAGE)) = true := by
      rw [List.all_eq_true]
      intro x hx
      have hx2 := (List.mem_filter.mp hx).2
      simp only [Bool.and_eq_true] at hx2
      exact hx2.2
    cases hr : readFile fs POLICY_IMAGE with
    | none => exact hfilter
    | some img => exact writeFile_all_key _ POLICY_IMAGE img hfilter
  · simp only [clear_all_data]
    cases hr : readFile fs POLICY_IMAGE with
    | none =>
      have hany : fs.any (fun p => p.1 == POLICY_IMAGE) = false := by
        cases hcase : fs.any (fun p => p.1 == POLICY_IMAGE) with
        | false => rfl
        | true =>
          exfalso
          rcases List.any_eq_true.mp hcase with ⟨x, hx, hpx⟩
          have : readFile fs POLICY_IMAGE ≠ none := by
            unfold readFile
            cases hf : List.find? (fun p => p.1 == POLICY_IMAGE) fs with
            | none => exact absurd hpx (List.find?_eq_none.mp hf x hx)
            | some p => simp
          exact this hr
      simp only [hany, Bool.false_and]
      rw [show (fs.filter (fun _ => false)) = [] from by simp]
      rfl
    | some img =>
      have hany : fs.any (fun p => p.1 == POLICY_IMAGE) = true := by
        unfold readFile at hr
        rcases Option.map_eq_some'.mp hr with ⟨p, hp, _⟩
        exact List.any_eq_true.mpr
          ⟨p, List.mem_of_find?_eq_some hp,
            @List.find?_some _ (fun q => q.1 == POLICY_IMAGE) p fs hp⟩
      simp only [hany, Bool.true_and]
      exact readFile_writeFile_self _ POLICY_IMAGE img

/-! ### C10: out-of-range assigned indices are skipped -/

theorem labeler_foldl_filter (all_data : List Sample) (selections : Nat → String)
    (user ts : String) (assigned : List Nat) :
    ∀ labels : Ledger,
      assigned.foldl (fun L i =>
        if i < all_data.length then setLabel L i (selections i) user ts else L) labels =
      (assigned.filter (fun i => decide (i < all_data.length))).foldl
        (fun L i => setLabel L i (selections i) user ts) labels := by
  induction assigned with
  | nil => intro labels; rfl
  | cons i rest ih =>
    intro labels
    rw [List.foldl_cons, List.filter_cons]
    by_cases hi : i < all_data.length
    · rw [if_pos hi, if_pos (by simpa using hi), List.foldl_cons]
      exact ih _
    · rw [if_neg hi, if_neg (by simpa using hi)]
      exact ih _

theorem labeler_foldl_preserves (all_data : List Sample) (selections : Nat → String)
    (user ts : String) (idx : Nat) (hidx : all_data.length ≤ idx)
    (assigned : List Nat) :
    ∀ labels : Ledger,
      dictGet (assigned.foldl (fun L i =>
        if i < all_data.length then setLabel L i (selections i) user ts else L)
        labels) idx = dictGet labels idx := by
  induction assigned with
  | nil => intro labels; rfl
  | cons i rest ih =>
    intro labels
    rw [List.foldl_cons]
    by_cases hi : i < all_data.length
    · rw [if_pos hi, ih _]
      exact dictGet_setLabel_ne labels i idx (selections i) user ts (by omega)
    · rw [if_neg hi, ih _]

/-- C10: an assigned index at or past the Sample Store size is silently
skipped by the labeling loop: its ledger entry is never created or modified (a
render changes nothing at that key), the loop is equivalent to one over only
the surfaced (in-range) indices, and such an index is never surfaced. -/
theorem labeler_skips_out_of_range (all_data : List Sample) (assigned : List Nat)
    (selections : Nat → String) (user ts : String) (labels : Ledger) (idx : Nat)
    (hidx : all_data.length ≤ idx) :
    dictGet (labeler_step all_data assigned selections user ts labels) idx =
      dictGet labels idx ∧
    labeler_step all_data assigned selections user ts labels =
      (surfaced_indices all_data assigned).foldl
        (fun L i => setLabel L i (selections i) user ts) labels ∧
    idx ∉ surfaced_indices all_data assigned := by
  refine ⟨?_, ?_, ?_⟩
  · exact labeler_foldl_preserves all_data selections user ts idx hidx assigned labels
  · exact labeler_foldl_filter all_data selections user ts assigned labels
  · intro hmem
    have hdec := (List.mem_filter.mp hmem).2
    simp at hdec
    omega

/-- Witness for `labeler_skips_out_of_range`: a one-sample store with a stale
assignment `[0, 5]`; index 5 is skipped and not surfaced. -/
theorem labeler_skips_out_of_range_witness :
    dictGet (labeler_step [⟨"q", "a"⟩] [0, 5] (fun _ => "정책") "user_1" "t" []) 5 =
      dictGet [] 5 ∧
    5 ∉ surfaced_indices [⟨"q", "a"⟩] [0, 5] := by
  have h := labeler_skips_out_of_range [⟨"q", "a"⟩] [0, 5] (fun _ => "정책")
    "user_1" "t" [] 5 (by decide)
  exact ⟨h.1, h.2.2⟩

end DataLabeler
